import Mathlib

/-!
# Verification of the `asgn` assignment-manager core

A shallow embedding, in Lean 4, of the core logic of the `asgn` course
assignment manager (Rust), together with theorems settling the claims of its
natural-language specification.

Embedded components and their Rust sources:

* Rule / Ruleset execution engine — `src/asgn_spec.rs`
  (`AsgnSpec::run_rule`, `AsgnSpec::log_metric`, `AsgnSpec::run_ruleset`).
* Submission slot state — `src/asgn_spec.rs`
  (`SubmissionSlot::get_grace`, `get_extension`, `status`,
  `SubmissionStatus::versus`).
* Activity gate — `src/act/student.rs` (`StudentAct::verify_active`) and
  `src/asgn_spec.rs` (`AsgnSpec::before_open` / `after_close`).
* Grace budget — `src/act/student.rs` (`StudentAct::grace`) and
  `src/context.rs` (`Context::grace_spent`).
* Score refresh — `src/act/instructor.rs` (`InstructorAct::latest_score`,
  `update_scores`).
* Ranking — `src/act/student.rs` (`StudentAct::rank_specialized`).

Modelling conventions:

* Timestamps are whole seconds (`Int`), matching the Unix `mtime` values the
  program reads; `chrono` durations compare by `num_seconds`, which on whole
  seconds coincides with the `Int` comparison used here.  One calendar day is
  modelled as 86400 s (DST-induced day-length variation is outside the model).
* Rust `i64`/`usize` arithmetic is modelled by `Int`/`Nat`; wherever a `usize`
  subtraction occurs in the source, the absence of underflow is proved.
* Fallible Rust functions returning `Result` are modelled with `Except`.
  External effects (spawned commands, file reads, user-db lookups) are
  supplied by explicit environment structures.
-/

namespace Asgn

/-- Error kinds, mirroring the `FailInfo` variants of `src/fail_info.rs` that
the embedded functions produce.  Payload strings are dropped: no claim
inspects them. -/
inductive FailKind where
  | noGrace
  | graceLimit
  | notEnoughGrace
  | invalidAsgn
  | inactive
  | beforeOpen
  | afterClose
  | ioFail
  | invalidUID
  deriving DecidableEq, Repr

/-- `Role` from `src/context.rs`. -/
inductive Role where
  | instructor
  | grader
  | student
  | other
  deriving DecidableEq, Repr

/-- `Rule` from `src/asgn_spec.rs`.  The display texts (`wait_text`,
`pass_text`, `fail_text`, `help_text`) only affect printing and are omitted;
every field consulted by control flow is kept. -/
structure Rule where
  target : String
  fail_okay : Option Bool
  kind : Option String
  deriving DecidableEq, Repr

/-- `Ruleset` from `src/asgn_spec.rs`. -/
structure Ruleset where
  on_grade : Option Bool
  on_submit : Option Bool
  fail_okay : Option Bool
  rules : List Rule
  deriving DecidableEq, Repr

/-- Outcome of one external `make` invocation (`util::run_at` followed by the
exit-status test in `run_rule`): the spawn itself may fail, or the process
exits with a success flag. -/
inductive CmdOutcome where
  | spawnFail
  | exited (success : Bool)
  deriving DecidableEq, Repr

/-- A typed metric value as produced by `AsgnSpec::log_metric`.  `f64` values
are kept as their raw text (the embedding does not model IEEE semantics; no
claim inspects metric values). -/
inductive MetricVal where
  | boolean (b : Bool)
  | integer (n : Int)
  | float (text : String)
  deriving DecidableEq, Repr

/-- `toml::value::Table` restricted to metric values: a key-value map.
Insertion overwrites an existing key (map semantics of the `toml` crate). -/
def Table := List (String × MetricVal)

instance : DecidableEq Table := by unfold Table; infer_instance

/-- Map insert: replace the entry for `k` if present, else append. -/
def tableInsert : Table → String → MetricVal → Table
  | [], k, v => [(k, v)]
  | (k0, v0) :: rest, k, v =>
    if k0 = k then (k, v) :: rest else (k0, v0) :: tableInsert rest k v

/-- Environment of one `run_ruleset` call: the outcome of the `i`-th external
command, the content read back from the `i`-th rule's output file
(`none` = IO error), and `FromStr` oracles for the three metric kinds
(`bool`/`i64` parsing, and a parse-success oracle for `f64`). -/
structure RunEnv where
  outcome : Nat → CmdOutcome
  read : Nat → Option String
  parseBool : String → Option Bool
  parseInt : String → Option Int
  floatOk : String → Bool

/-- `AsgnSpec::run_rule` (src/asgn_spec.rs:299-349): on a successful exit
return `Ok(true)`; on a failing exit consult `rule.fail_okay.unwrap_or(false)`
to decide between the tolerated `Ok(false)` and the fatal `Err(())`; a spawn
failure is mapped to `Err(())` by `map_err(drop)?`. -/
def run_rule (rule : Rule) (outcome : CmdOutcome) : Except Unit Bool :=
  match outcome with
  | .spawnFail => .error ()
  | .exited true => .ok true
  | .exited false =>
    if !(rule.fail_okay.getD false) then .error () else .ok false

/-- The per-rule tolerance resolution performed by `run_ruleset`
(src/asgn_spec.rs:392): `rule.fail_okay.get_or_insert(ruleset.fail_okay.unwrap_or(false))`. -/
def resolve_rule (rset : Ruleset) (rule : Rule) : Rule :=
  { rule with fail_okay := some (rule.fail_okay.getD (rset.fail_okay.getD false)) }

/-- `AsgnSpec::log_metric` (src/asgn_spec.rs:352-372): parse the output text
according to `kind`; unknown kinds and parse failures only warn and leave the
score table unchanged. -/
def log_metric (env : RunEnv) (scores : Table) (target result kind : String) : Table :=
  let score : Option (Option MetricVal) :=
    match kind with
    | "bool" => some ((env.parseBool result).map MetricVal.boolean)
    | "int" => some ((env.parseInt result).map MetricVal.integer)
    | "float" =>
      some (if env.floatOk result then some (MetricVal.float result) else none)
    | _ => none
  match score with
  | none => scores
  | some none => scores
  | some (some v) => tableInsert scores target v

/-- The metric block of `run_ruleset` (src/asgn_spec.rs:412-422), entered
only after a passing rule when `is_metric` is set: a read error or a missing
`kind` warns and leaves the table unchanged. -/
def handle_metric (env : RunEnv) (i : Nat) (rule : Rule) (scores : Table) : Table :=
  match env.read i with
  | none => scores
  | some result =>
    match rule.kind with
    | none => scores
    | some kind => log_metric env scores rule.target result kind

/-- Mutable state of the `run_ruleset` loop after it stops: the `passed` and
`failed` counters, the `fatal` flag, and the accumulated score table. -/
structure LoopState where
  passed : Nat
  failed : Nat
  fatal : Bool
  scores : Table
  deriving DecidableEq

/-- The rule loop of `AsgnSpec::run_ruleset` (src/asgn_spec.rs:391-423).
`i` indexes the external invocations; `passed`/`failed`/`scores` are the loop
accumulators.  A fatal rule increments `failed`, sets `fatal` and breaks. -/
def run_rules (env : RunEnv) (rset : Ruleset) (is_metric : Bool) :
    List Rule → Nat → Nat → Nat → Table → LoopState
  | [], _, passed, failed, scores => ⟨passed, failed, false, scores⟩
  | r :: rest, i, passed, failed, scores =>
    let rule := resolve_rule rset r
    match run_rule rule (env.outcome i) with
    | .error _ => ⟨passed, failed + 1, true, scores⟩
    | .ok pass =>
      if pass then
        let scores2 := if is_metric then handle_metric env i rule scores else scores
        run_rules env rset is_metric rest (i + 1) (passed + 1) failed scores2
      else
        run_rules env rset is_metric rest (i + 1) passed (failed + 1) scores

/-- Observable outcome of running one present `Ruleset`: the numbers printed
in the trailing summary line
`{count} total targets - {passed} passed, {failed} failed, {not_reached} not reached`
and the returned `Result`.  `not_reached` is computed exactly as in the
source, `count - passed - failed` (a `usize` subtraction; theorem
`run_ruleset_counters` shows it never underflows). -/
structure RulesetOutcome where
  count : Nat
  passed : Nat
  failed : Nat
  not_reached : Nat
  fatal : Bool
  result : Except Unit Table

/-- `AsgnSpec::run_ruleset` (src/asgn_spec.rs:374-436) on a present ruleset:
run the loop from empty accumulators, then report the summary counters and
return `Err(())` iff a fatal failure occurred. -/
def run_ruleset_run (env : RunEnv) (rset : Ruleset) (is_metric : Bool) : RulesetOutcome :=
  let s := run_rules env rset is_metric rset.rules 0 0 0 []
  { count := rset.rules.length
    passed := s.passed
    failed := s.failed
    not_reached := rset.rules.length - s.passed - s.failed
    fatal := s.fatal
    result := if s.fatal then .error () else .ok s.scores }

/-- `AsgnSpec::run_ruleset` including the `None`-ruleset early return
(src/asgn_spec.rs:379-382): prints "No targets." and succeeds with an empty
table, without any summary line. -/
def run_ruleset (env : RunEnv) (rset : Option Ruleset) (is_metric : Bool) :
    Except Unit Table :=
  match rset with
  | none => .ok []
  | some rs => (run_ruleset_run env rs is_metric).result

/-- Each loop step moves the `passed + failed` total up by at most one per
rule; it covers the whole list exactly when no fatal failure occurred. -/
theorem run_rules_counts (env : RunEnv) (rset : Ruleset) (m : Bool) :
    ∀ (l : List Rule) (i p f : Nat) (s : Table),
      (p + f ≤ (run_rules env rset m l i p f s).passed + (run_rules env rset m l i p f s).failed)
      ∧ ((run_rules env rset m l i p f s).passed + (run_rules env rset m l i p f s).failed
          ≤ p + f + l.length)
      ∧ ((run_rules env rset m l i p f s).fatal = false →
          (run_rules env rset m l i p f s).passed + (run_rules env rset m l i p f s).failed
            = p + f + l.length) := by
  intro l
  induction l with
  | nil =>
    intro i p f s
    simp [run_rules]
  | cons r rest ih =>
    intro i p f s
    rcases hr : run_rule (resolve_rule rset r) (env.outcome i) with e | pass
    · have heq : run_rules env rset m (r :: rest) i p f s = ⟨p, f + 1, true, s⟩ := by
        simp [run_rules, hr]
      rw [heq, List.length_cons]
      refine ⟨?_, ?_, ?_⟩
      · show p + f ≤ p + (f + 1)
        omega
      · show p + (f + 1) ≤ p + f + (rest.length + 1)
        omega
      · intro hcon
        exact absurd hcon (by simp)
    · cases pass with
      | true =>
        have heq : run_rules env rset m (r :: rest) i p f s
            = run_rules env rset m rest (i + 1) (p + 1) f
                (if m then handle_metric env i (resolve_rule rset r) s else s) := by
          simp [run_rules, hr]
        rw [heq, List.length_cons]
        obtain ⟨h1, h2, h3⟩ :=
          ih (i + 1) (p + 1) f (if m then handle_metric env i (resolve_rule rset r) s else s)
        exact ⟨by omega, by omega, fun h => by have := h3 h; omega⟩
      | false =>
        have heq : run_rules env rset m (r :: rest) i p f s
            = run_rules env rset m rest (i + 1) p (f + 1) s := by
          simp [run_rules, hr]
        rw [heq, List.length_cons]
        obtain ⟨h1, h2, h3⟩ := ih (i + 1) p (f + 1) s
        exact ⟨by omega, by omega, fun h => by have := h3 h; omega⟩

/-- Once the loop has gone fatal on a prefix of the rule list, appending
further rules changes nothing: they are never executed. -/
theorem run_rules_stop (env : RunEnv) (rset : Ruleset) (m : Bool) :
    ∀ (l1 l2 : List Rule) (i p f : Nat) (s : Table),
      (run_rules env rset m l1 i p f s).fatal = true →
      run_rules env rset m (l1 ++ l2) i p f s = run_rules env rset m l1 i p f s := by
  intro l1
  induction l1 with
  | nil =>
    intro l2 i p f s h
    simp [run_rules] at h
  | cons r rest ih =>
    intro l2 i p f s h
    rcases hr : run_rule (resolve_rule rset r) (env.outcome i) with e | pass
    · simp only [List.cons_append, run_rules, hr]
    · cases pass with
      | true =>
        have heq : ∀ (l : List Rule), run_rules env rset m (r :: l) i p f s
            = run_rules env rset m l (i + 1) (p + 1) f
                (if m then handle_metric env i (resolve_rule rset r) s else s) := by
          intro l
          simp [run_rules, hr]
        rw [heq rest] at h
        simp only [List.cons_append]
        rw [heq (rest ++ l2), heq rest]
        exact ih l2 (i + 1) (p + 1) f _ h
      | false =>
        have heq : ∀ (l : List Rule), run_rules env rset m (r :: l) i p f s
            = run_rules env rset m l (i + 1) p (f + 1) s := by
          intro l
          simp [run_rules, hr]
        rw [heq rest] at h
        simp only [List.cons_append]
        rw [heq (rest ++ l2), heq rest]
        exact ih l2 (i + 1) p (f + 1) s h

/-- C1: a rule whose external command exits unsuccessfully is tolerated
(returns `Ok(false)`) exactly when its effective fail tolerance —
`rule.fail_okay` if set, else the ruleset default `fail_okay`, else `false` —
is true; otherwise the run is the fatal `Err`.  The effective tolerance is
the one installed by `run_ruleset`'s `get_or_insert` before calling
`run_rule`. -/
theorem c1_fail_tolerance (rset : Ruleset) (r : Rule) :
    run_rule (resolve_rule rset r) (CmdOutcome.exited false)
      = if r.fail_okay.getD (rset.fail_okay.getD false) then Except.ok false
        else Except.error () := by
  simp only [run_rule, resolve_rule, Option.getD_some]
  rcases Bool.eq_false_or_eq_true (r.fail_okay.getD (rset.fail_okay.getD false)) with hb | hb <;>
    simp [hb]

/-- C2: the counters printed in the trailing summary of `run_ruleset` always
satisfy `passed + failed + not_reached = count`, and `not_reached` is
positive only when a fatal rule failure occurred during that run. -/
theorem c2_summary_counters (env : RunEnv) (rset : Ruleset) (m : Bool) :
    ((run_ruleset_run env rset m).passed + (run_ruleset_run env rset m).failed
        + (run_ruleset_run env rset m).not_reached = (run_ruleset_run env rset m).count)
    ∧ (0 < (run_ruleset_run env rset m).not_reached →
        (run_ruleset_run env rset m).fatal = true) := by
  obtain ⟨h1, h2, h3⟩ := run_rules_counts env rset m rset.rules 0 0 0 []
  constructor
  · simp only [run_ruleset_run]
    omega
  · intro hpos
    simp only [run_ruleset_run] at hpos ⊢
    cases hfatal : (run_rules env rset m rset.rules 0 0 0 []).fatal with
    | true => rfl
    | false =>
      exfalso
      have := h3 hfatal
      omega

/-- C3: a fatal rule failure increments `failed`, stops the iteration on the
spot (appended rules are never run), and makes `run_ruleset` return `Err`;
in particular the two-rule scenario `[r1 fail_okay=true, r2 fail_okay=false]`
with both commands failing ends with `failed = 2`, `not_reached = 0` and an
`Err` result. -/
theorem c3_fatal_short_circuit :
    (∀ (env : RunEnv) (rset : Ruleset) (m : Bool) (r : Rule) (rest : List Rule)
        (i p f : Nat) (s : Table),
        run_rule (resolve_rule rset r) (env.outcome i) = .error () →
        run_rules env rset m (r :: rest) i p f s = ⟨p, f + 1, true, s⟩)
    ∧ (∀ (env : RunEnv) (rset : Ruleset) (m : Bool) (l1 l2 : List Rule)
        (i p f : Nat) (s : Table),
        (run_rules env rset m l1 i p f s).fatal = true →
        run_rules env rset m (l1 ++ l2) i p f s = run_rules env rset m l1 i p f s)
    ∧ (∀ (env : RunEnv) (rset : Ruleset) (m : Bool),
        (run_ruleset_run env rset m).fatal = true →
        (run_ruleset_run env rset m).result = .error ())
    ∧ (∀ (env : RunEnv) (og os fo : Option Bool) (r1 r2 : Rule) (m : Bool),
        r1.fail_okay = some true → r2.fail_okay = some false →
        env.outcome 0 = .exited false → env.outcome 1 = .exited false →
        run_ruleset_run env ⟨og, os, fo, [r1, r2]⟩ m
          = { count := 2, passed := 0, failed := 2, not_reached := 0,
              fatal := true, result := .error () }) := by
  refine ⟨?_, run_rules_stop, ?_, ?_⟩
  · intro env rset m r rest i p f s h
    simp only [run_rules, h]
  · intro env rset m h
    simp only [run_ruleset_run] at h ⊢
    simp [h]
  · intro env og os fo r1 r2 m h1 h2 ho0 ho1
    simp only [run_ruleset_run, run_rules, run_rule, resolve_rule, ho0, ho1, h1, h2,
      Option.getD_some, Bool.not_true, Bool.false_eq_true, if_false, if_pos rfl]
    rfl

/-- An environment in which every external command exits unsuccessfully. -/
def envAllFail : RunEnv :=
  ⟨fun _ => .exited false, fun _ => none, fun _ => none, fun _ => none, fun _ => false⟩

/-- A two-rule ruleset with no tolerances set: the first rule is fatal. -/
def rsTwoPlain : Ruleset :=
  ⟨none, none, none, [⟨"a", none, none⟩, ⟨"b", none, none⟩]⟩

/-- Witness for `c2_summary_counters`: under `envAllFail` the plain two-rule
ruleset stops fatally on its first rule, leaving one rule not reached. -/
theorem c2_summary_counters_witness :
    (0 < (run_ruleset_run envAllFail rsTwoPlain false).not_reached)
    ∧ (run_ruleset_run envAllFail rsTwoPlain false).fatal = true :=
  ⟨by decide, (c2_summary_counters envAllFail rsTwoPlain false).2 (by decide)⟩

/-- Witness for `c3_fatal_short_circuit`: scenario B of the specification,
run concretely. -/
theorem c3_fatal_short_circuit_witness :
    run_ruleset_run envAllFail
        ⟨none, none, none, [⟨"lint", some true, none⟩, ⟨"compile", some false, none⟩]⟩ false
      = { count := 2, passed := 0, failed := 2, not_reached := 0,
          fatal := true, result := .error () } :=
  c3_fatal_short_circuit.2.2.2 envAllFail none none none
    ⟨"lint", some true, none⟩ ⟨"compile", some false, none⟩ false rfl rfl rfl rfl

/-- `SubmissionStatus` from `src/asgn_spec.rs`, with timestamps as epoch
seconds. -/
structure SubmissionStatus where
  turn_in_time : Option Int
  grace_days : Int
  extension_days : Int
  deriving DecidableEq, Repr

/-- On-disk state of a slot's `.extension` file: absent, a directory, or a
regular file with the (user-db resolved) owner name — `none` when the owner
uid maps to no user — and the parsed `value` (`none` = read or parse
failure). -/
inductive ExtFileState where
  | absent
  | dir
  | file (owner : Option String) (value : Option Int)
  deriving DecidableEq, Repr

/-- Filesystem state that one `SubmissionSlot` observes: the mtimes of the
required files (`none` = not present as a regular file), the `.grace` file
(`none` = unreadable, treated as 0; `some none` = present but unparseable),
the `.extension` file, and the course instructor's user name from the
`Context`. -/
structure SlotEnv where
  files : List (Option Int)
  graceFile : Option (Option Int)
  extFile : ExtFileState
  instructor : String

/-- `SubmissionSlot::get_grace` (src/asgn_spec.rs:549-560): an unreadable
file yields 0, a parse failure is an error. -/
def get_grace (env : SlotEnv) : Except FailKind Int :=
  match env.graceFile with
  | none => .ok 0
  | some none => .error .ioFail
  | some (some v) => .ok v

/-- `SubmissionSlot::get_extension` (src/asgn_spec.rs:573-604): missing file
or directory yield 0; an unmapped owner uid errors; a file whose owner is not
the course instructor errors (trust violation, reported via `IOFail` as in
the source); otherwise the parsed value is returned (parse failure errors). -/
def get_extension (env : SlotEnv) : Except FailKind Int :=
  match env.extFile with
  | .absent => .ok 0
  | .dir => .ok 0
  | .file none _ => .error .invalidUID
  | .file (some owner) v =>
    if owner ≠ env.instructor then .error .ioFail
    else
      match v with
      | none => .error .ioFail
      | some n => .ok n

/-- `SubmissionSlot::status` (src/asgn_spec.rs:617-647): `submitted` iff all
required files are regular files; the turn-in time is the fold of `max` over
their mtimes started at 0; grace and extension errors propagate (`?`).  The
epoch-to-local conversion cannot fail in the integer time model. -/
def slot_status (env : SlotEnv) : Except FailKind SubmissionStatus :=
  let submitted := env.files.all (fun f => f.isSome)
  let turn_in_time : Option Int :=
    if submitted then some (env.files.foldl (fun m f => max m (f.getD 0)) 0) else none
  match get_grace env with
  | .error e => .error e
  | .ok g =>
    match get_extension env with
    | .error e => .error e
    | .ok x => .ok ⟨turn_in_time, g, x⟩

/-- `SubmissionStatus::time_past` (src/asgn_spec.rs:652-654). -/
def time_past (st : SubmissionStatus) (t : Int) : Option Int :=
  st.turn_in_time.map (fun tin => tin - t)

/-- `SubmissionStatus::versus` (src/asgn_spec.rs:656-693).  `now` is
`Local::now()` as consulted by the missing-submission branch.  `num_days`,
`num_hours`, `num_minutes` of a whole-second duration are truncated (Rust)
divisions, hence `Int.tdiv`; the `num_seconds() > 0` test is `0 < late_by`
on whole seconds. -/
def versus (st : SubmissionStatus) (now : Int) (time : Option Int) : String :=
  match time with
  | none => if st.turn_in_time.isSome then "Submitted" else "Not Submitted"
  | some t =>
    match time_past st t with
    | none => if now - t ≤ 0 then "Not Submitted" else "Missing"
    | some late_by =>
      let days := late_by.tdiv 86400
      let hours := late_by.tdiv 3600 - days * 24
      let mins := late_by.tdiv 60 - (days * 24 + hours) * 60
      if 0 < late_by then
        "Late " ++ toString days ++ "d " ++ toString hours ++ "h " ++ toString mins ++ "m"
      else
        "Early " ++ toString (-days) ++ "d " ++ toString (-hours) ++ "h " ++ toString (-mins) ++ "m"

/-- The whole-day/hour/minute decomposition computed by `versus`, as a
function of the duration (seconds). -/
def dhm (d : Int) : Int × Int × Int :=
  (d.tdiv 86400,
   d.tdiv 3600 - d.tdiv 86400 * 24,
   d.tdiv 60 - (d.tdiv 86400 * 24 + (d.tdiv 3600 - d.tdiv 86400 * 24)) * 60)

/-- Coarsening an Euclidean division's divisor by a factor `a` loses against
dividing once by the finer divisor. -/
theorem mul_ediv_le_ediv (m a b : Int) (ha : 0 < a) (hb : 0 < b) :
    a * (m / (b * a)) ≤ m / b := by
  rw [Int.le_ediv_iff_mul_le hb]
  have hba : b * a ≠ 0 := by positivity
  calc a * (m / (b * a)) * b = m / (b * a) * (b * a) := by ring
  _ ≤ m := Int.ediv_mul_le m hba

/-- For a nonnegative duration every component of the decomposition is
nonnegative. -/
theorem dhm_nonneg (d : Int) (hd : 0 ≤ d) :
    0 ≤ (dhm d).1 ∧ 0 ≤ (dhm d).2.1 ∧ 0 ≤ (dhm d).2.2 := by
  have e86400 : d.tdiv 86400 = d / 86400 := Int.tdiv_eq_ediv hd (by norm_num)
  have e3600 : d.tdiv 3600 = d / 3600 := Int.tdiv_eq_ediv hd (by norm_num)
  have e60 : d.tdiv 60 = d / 60 := Int.tdiv_eq_ediv hd (by norm_num)
  refine ⟨?_, ?_, ?_⟩
  · simp only [dhm, e86400]
    positivity
  · simp only [dhm, e86400, e3600]
    have h := mul_ediv_le_ediv d 24 3600 (by norm_num) (by norm_num)
    norm_num at h
    omega
  · simp only [dhm, e86400, e3600, e60]
    have h := mul_ediv_le_ediv d 60 60 (by norm_num) (by norm_num)
    norm_num at h
    have heq : d / 86400 * 24 + (d / 3600 - d / 86400 * 24) = d / 3600 := by ring
    rw [heq]
    omega

/-- Negating the duration negates every component of the decomposition
(truncated division is symmetric about zero). -/
theorem dhm_neg (d : Int) :
    dhm (-d) = (-(dhm d).1, -(dhm d).2.1, -(dhm d).2.2) := by
  simp only [dhm, Int.neg_tdiv, Prod.mk.injEq]
  refine ⟨by ring_nf, by ring_nf, by ring_nf⟩

/-- C7: for a submitted status and a due date, `versus` reports
`"Late {d}d {h}h {m}m"` exactly when `turn_in_time - due_date > 0` and
`"Early {d}d {h}h {m}m"` when the difference is `≤ 0`, where the displayed
components are the (nonnegative) whole-day/hour/minute decomposition of the
absolute difference; swapping which timestamp is later flips Late↔Early with
identical magnitudes. -/
theorem c7_versus_antisymmetric (a b now now2 g g2 e e2 : Int) :
    (0 ≤ (dhm |a - b|).1 ∧ 0 ≤ (dhm |a - b|).2.1 ∧ 0 ≤ (dhm |a - b|).2.2)
    ∧ (0 < a - b →
        versus ⟨some a, g, e⟩ now (some b)
          = "Late " ++ toString (dhm |a - b|).1 ++ "d " ++ toString (dhm |a - b|).2.1
              ++ "h " ++ toString (dhm |a - b|).2.2 ++ "m")
    ∧ (a - b ≤ 0 →
        versus ⟨some a, g, e⟩ now (some b)
          = "Early " ++ toString (dhm |a - b|).1 ++ "d " ++ toString (dhm |a - b|).2.1
              ++ "h " ++ toString (dhm |a - b|).2.2 ++ "m")
    ∧ (0 < a - b →
        versus ⟨some b, g2, e2⟩ now2 (some a)
          = "Early " ++ toString (dhm |a - b|).1 ++ "d " ++ toString (dhm |a - b|).2.1
              ++ "h " ++ toString (dhm |a - b|).2.2 ++ "m") := by
  have versus_submitted : ∀ (x t n gg ee : Int),
      versus ⟨some x, gg, ee⟩ n (some t)
        = if 0 < x - t then
            "Late " ++ toString (dhm (x - t)).1 ++ "d " ++ toString (dhm (x - t)).2.1
              ++ "h " ++ toString (dhm (x - t)).2.2 ++ "m"
          else
            "Early " ++ toString (-(dhm (x - t)).1) ++ "d " ++ toString (-(dhm (x - t)).2.1)
              ++ "h " ++ toString (-(dhm (x - t)).2.2) ++ "m" := by
    intro x t n gg ee
    simp [versus, time_past, dhm]
  refine ⟨dhm_nonneg _ (abs_nonneg _), ?_, ?_, ?_⟩
  · intro h
    rw [abs_of_pos h, versus_submitted, if_pos h]
  · intro h
    rw [abs_of_nonpos h, dhm_neg, versus_submitted, if_neg (by omega)]
  · intro h
    have hba : b - a = -(a - b) := by ring
    rw [abs_of_pos h, versus_submitted, if_neg (by omega), hba, dhm_neg]
    simp only [neg_neg]

/-- Witness for `c7_versus_antisymmetric`: one day, one hour and one minute
late (90060 s), and the swapped comparison. -/
theorem c7_versus_antisymmetric_witness :
    versus ⟨some 90060, 0, 0⟩ 0 (some 0) = "Late 1d 1h 1m"
    ∧ versus ⟨some 0, 0, 0⟩ 0 (some 90060) = "Early 1d 1h 1m" := by
  have h := c7_versus_antisymmetric 90060 0 0 0 0 0 0 0
  refine ⟨?_, ?_⟩
  · have h2 := h.2.1 (by norm_num)
    rw [h2]
    rfl
  · have h4 := h.2.2.2 (by norm_num)
    rw [h4]
    rfl

/-- C6: a `.extension` file that exists as a regular file whose owner is not
the course instructor makes `get_extension` — and therefore
`SubmissionSlot::status` — return an error; no default and no stored value is
ever returned in that situation. -/
theorem c6_extension_trust (env : SlotEnv) (owner : String) (v : Option Int) :
    env.extFile = .file (some owner) v → owner ≠ env.instructor →
    (∃ e, get_extension env = .error e) ∧ (∃ e, slot_status env = .error e) := by
  intro hext hown
  have hx : get_extension env = .error .ioFail := by
    simp [get_extension, hext, hown]
  refine ⟨⟨_, hx⟩, ?_⟩
  rcases hg : get_grace env with e0 | g0
  · exact ⟨e0, by simp [slot_status, hg]⟩
  · exact ⟨.ioFail, by simp [slot_status, hg, hx]⟩

/-- Witness for `c6_extension_trust`: a student-owned extension file. -/
theorem c6_extension_trust_witness :
    (∃ e, get_extension ⟨[], none, .file (some "mallory") (some 3), "inst"⟩ = .error e)
    ∧ (∃ e, slot_status ⟨[], none, .file (some "mallory") (some 3), "inst"⟩ = .error e) :=
  c6_extension_trust ⟨[], none, .file (some "mallory") (some 3), "inst"⟩ "mallory" (some 3)
    rfl (by decide)

/-- The activity/date fields of an `AsgnSpec` consulted by the gate
functions. -/
structure SpecGate where
  active : Bool
  open_date : Option Int
  close_date : Option Int
  deriving DecidableEq, Repr

/-- `AsgnSpec::before_open` (src/asgn_spec.rs:224-229): true iff
`now + 1 day < open_date` (note the one-day shift in the source); one
calendar day is 86400 s in the integer time model. -/
def before_open (now : Int) (spec : SpecGate) : Bool :=
  (spec.open_date.map (fun date => decide (now + 86400 - date < 0))).getD false

/-- `AsgnSpec::after_close` (src/asgn_spec.rs:231-235): true iff
`now > close_date`. -/
def after_close (now : Int) (spec : SpecGate) : Bool :=
  (spec.close_date.map (fun date => decide (0 < now - date))).getD false

/-- `StudentAct::verify_active` (src/act/student.rs:142-158), embedded
verbatim: the local `is_instructor` is computed as
`context.role != Role::Instructor`, exactly as in the source. -/
def verify_active (now : Int) (spec : SpecGate) (role : Role) : Except FailKind Unit :=
  let is_instructor : Bool := decide (role ≠ Role.instructor)
  if !spec.active then .error .inactive
  else if !is_instructor && before_open now spec then .error .beforeOpen
  else if !is_instructor && after_close now spec then .error .afterClose
  else .ok ()

/-- C10 (divergence exhibit): because `verify_active` computes
`is_instructor` as `role != Instructor`, the open/close gates bind only the
instructor.  Concretely, with the close date already past (close = 100,
now = 200) a student caller passes while the instructor is rejected; an
inactive assignment still rejects every caller; and even for the gated role
a time within one day before the open date raises no `BeforeOpen` error. -/
theorem c10_verify_active_behavior :
    verify_active 200 ⟨true, none, some 100⟩ Role.student = .ok ()
    ∧ verify_active 200 ⟨true, none, some 100⟩ Role.instructor = .error .afterClose
    ∧ (∀ role, verify_active 200 ⟨false, none, some 100⟩ role = .error .inactive)
    ∧ verify_active 0 ⟨true, some 3600, none⟩ Role.instructor = .ok () := by
  refine ⟨rfl, rfl, ?_, rfl⟩
  intro role
  cases role <;> rfl

/-- The slice of `Context` (src/context.rs) read by `StudentAct::grace` and
`Context::grace_spent`: the invoking user (`context.user`), their role, the
wall-clock time, the course grace settings, the assignment manifest, which
catalog entries loaded successfully, each assignment's gate fields, and the
recorded `.grace` value of every (assignment, user) slot (0 when the file is
absent; slots are assumed readable — `grace_spent` unwraps the status of
every slot, so an unreadable course state aborts the process and settles no
claim). -/
structure GraceEnv where
  user : String
  role : Role
  now : Int
  grace_total : Option Int
  grace_limit : Option Int
  manifest : List String
  catalogOk : String → Bool
  specGate : String → SpecGate
  graceRec : String → String → Int

/-- `Context::grace_spent` (src/context.rs:716-735): fold, over the
catalog-ok manifest entries, of the grace days recorded in the slot of
`self.user` — the *invoking* user. -/
def grace_spent (env : GraceEnv) : Int :=
  ((env.manifest.filter (fun a => env.catalogOk a)).map
    (fun a => env.graceRec a env.user)).foldl (· + ·) 0

/-- `StudentAct::grace` (src/act/student.rs:161-187).  The checks run in
source order: missing course budget, per-assignment limit, catalog lookup,
`verify_active`, then the budget comparison
`total < grace_spent() - current + requested` — with `grace_spent` summed
over the invoking user and `current` read from the *target* user's slot.
A returned `.ok (asgn, user, days)` denotes the `set_grace` write performed
at the end; every `.error` path returns before any write. -/
def grace (env : GraceEnv) (asgn : String) (user : String) (ext_days : Int) :
    Except FailKind (String × String × Int) :=
  if env.grace_total.isNone then .error .noGrace
  else if (match env.grace_limit with
           | some num => decide (num < ext_days)
           | none => false) then .error .graceLimit
  else if !env.catalogOk asgn then .error .invalidAsgn
  else
    match verify_active env.now (env.specGate asgn) env.role with
    | .error e => .error e
    | .ok _ =>
      let current_grace := env.graceRec asgn user
      if (match env.grace_total with
          | some num => decide (num < grace_spent env - current_grace + ext_days)
          | none => false) then .error .notEnoughGrace
      else .ok (asgn, user, ext_days)

/-- The spent figure as the specification describes it: summed over the
slots of the user for whom grace is being granted (the target user).  Stated
for comparison with `grace_spent`, which sums over the invoking user. -/
def grace_spent_for (env : GraceEnv) (u : String) : Int :=
  ((env.manifest.filter (fun a => env.catalogOk a)).map
    (fun a => env.graceRec a u)).foldl (· + ·) 0

/-- The grace pipeline exactly as the specification words it for claim C5:
identical to `grace` except that the spent figure is
`grace_spent_for env user`, the sum over the *target* user's slots. -/
def grace_claim (env : GraceEnv) (asgn : String) (user : String) (ext_days : Int) :
    Except FailKind (String × String × Int) :=
  if env.grace_total.isNone then .error .noGrace
  else if (match env.grace_limit with
           | some num => decide (num < ext_days)
           | none => false) then .error .graceLimit
  else if !env.catalogOk asgn then .error .invalidAsgn
  else
    match verify_active env.now (env.specGate asgn) env.role with
    | .error e => .error e
    | .ok _ =>
      let current_grace := env.graceRec asgn user
      if (match env.grace_total with
          | some num => decide (num < grace_spent_for env user - current_grace + ext_days)
          | none => false) then .error .notEnoughGrace
      else .ok (asgn, user, ext_days)

/-- C4: the grace request is rejected — with the matching reason, and with
no write performed — when the course has no `grace_total`, when the amount
exceeds `grace_limit`, or when `spent - current + amount` exceeds
`grace_total` (in the last case the reason is `NotEnoughGrace` whenever the
earlier gates pass); and a request of exactly
`total - (spent - current)`, within the per-assignment limit, is accepted
whenever the assignment resolves and is active/open. -/
theorem c4_grace_budget (env : GraceEnv) (asgn user : String) (amt : Int) :
    (env.grace_total = none → grace env asgn user amt = .error .noGrace)
    ∧ (∀ t lim, env.grace_total = some t → env.grace_limit = some lim → lim < amt →
        grace env asgn user amt = .error .graceLimit)
    ∧ (∀ t, env.grace_total = some t →
        t < grace_spent env - env.graceRec asgn user + amt →
        ∃ e, grace env asgn user amt = .error e)
    ∧ (∀ t, env.grace_total = some t →
        t < grace_spent env - env.graceRec asgn user + amt →
        (∀ lim, env.grace_limit = some lim → amt ≤ lim) →
        env.catalogOk asgn = true →
        verify_active env.now (env.specGate asgn) env.role = .ok () →
        grace env asgn user amt = .error .notEnoughGrace)
    ∧ (∀ t, env.grace_total = some t →
        amt = t - (grace_spent env - env.graceRec asgn user) →
        (∀ lim, env.grace_limit = some lim → amt ≤ lim) →
        env.catalogOk asgn = true →
        verify_active env.now (env.specGate asgn) env.role = .ok () →
        grace env asgn user amt = .ok (asgn, user, amt)) := by
  refine ⟨?_, ?_, ?_, ?_, ?_⟩
  · intro h
    simp [grace, h]
  · intro t lim ht hlim hamt
    simp [grace, ht, hlim, hamt]
  · intro t ht hover
    rcases hlim : env.grace_limit with _ | lim
    · by_cases hcat : env.catalogOk asgn
      · rcases hva : verify_active env.now (env.specGate asgn) env.role with e0 | u0
        · exact ⟨e0, by simp [grace, ht, hlim, hcat, hva]⟩
        · exact ⟨.notEnoughGrace, by simp [grace, ht, hlim, hcat, hva, hover]⟩
      · exact ⟨.invalidAsgn, by simp [grace, ht, hlim, hcat]⟩
    · by_cases hamt : lim < amt
      · exact ⟨.graceLimit, by simp [grace, ht, hlim, hamt]⟩
      · by_cases hcat : env.catalogOk asgn
        · rcases hva : verify_active env.now (env.specGate asgn) env.role with e0 | u0
          · exact ⟨e0, by simp [grace, ht, hlim, hamt, hcat, hva]⟩
          · exact ⟨.notEnoughGrace, by simp [grace, ht, hlim, hamt, hcat, hva, hover]⟩
        · exact ⟨.invalidAsgn, by simp [grace, ht, hlim, hamt, hcat]⟩
  · intro t ht hover hlimok hcat hva
    rcases hlim : env.grace_limit with _ | lim
    · simp [grace, ht, hlim, hcat, hva, hover]
    · have := hlimok lim hlim
      simp [grace, ht, hlim, not_lt.mpr this, hcat, hva, hover]
  · intro t ht hexact hlimok hcat hva
    have hnot : ¬ t < grace_spent env - env.graceRec asgn user + amt := by omega
    rcases hlim : env.grace_limit with _ | lim
    · simp [grace, ht, hlim, hcat, hva, hnot]
    · have := hlimok lim hlim
      simp [grace, ht, hlim, not_lt.mpr this, hcat, hva, hnot]

/-- A student's course state for exercising the grace checks: total budget 5,
limit 3, two assignments, 2 grace days already recorded on `a2`. -/
def envGrace : GraceEnv :=
  { user := "u", role := .student, now := 0,
    grace_total := some 5, grace_limit := some 3,
    manifest := ["a1", "a2"],
    catalogOk := fun _ => true,
    specGate := fun _ => ⟨true, none, none⟩,
    graceRec := fun a u => if a = "a2" && u = "u" then 2 else 0 }

/-- Witness for `c4_grace_budget`: requesting exactly
`total - (spent - current) = 5 - (2 - 0) = 3` (within the limit 3) is
accepted; the same request without a course budget is rejected. -/
theorem c4_grace_budget_witness :
    grace envGrace "a1" "u" 3 = .ok ("a1", "u", 3)
    ∧ grace { envGrace with grace_total := none } "a1" "u" 3 = .error .noGrace := by
  constructor
  · refine (c4_grace_budget envGrace "a1" "u" 3).2.2.2.2 5 rfl (by decide) ?_ rfl rfl
    intro lim h
    simp [envGrace] at h
    omega
  · exact (c4_grace_budget { envGrace with grace_total := none } "a1" "u" 3).1 rfl

/-- An instructor-invoked course state: the target student `stu` has already
recorded 2 grace days on `a2`, the invoking instructor none; budget 2. -/
def envGraceInst : GraceEnv :=
  { user := "inst", role := .instructor, now := 0,
    grace_total := some 2, grace_limit := none,
    manifest := ["a1", "a2"],
    catalogOk := fun _ => true,
    specGate := fun _ => ⟨true, none, none⟩,
    graceRec := fun a u => if a = "a2" && u = "stu" then 2 else 0 }

/-- C5 counterexample: when the instructor grants grace to `stu`
(`SetGrace` routes into `StudentAct::grace` with `user = "stu"` while
`context.user = "inst"`), the spent figure is summed over the instructor's
slots, not the target's: the request is accepted although the target-user
sum `spent - current + amount = 2 - 0 + 2` exceeds the total 2. -/
theorem c5_spent_user_counterexample :
    grace envGraceInst "a1" "stu" 2 = .ok ("a1", "stu", 2)
    ∧ envGraceInst.grace_total = some 2
    ∧ 2 < grace_spent_for envGraceInst "stu" - envGraceInst.graceRec "a1" "stu" + 2
    ∧ grace_spent envGraceInst ≠ grace_spent_for envGraceInst "stu" :=
  ⟨rfl, rfl, by decide, by decide⟩

/-- C5 amended: the spent figure is recomputed at check time by summing the
recorded grace days over every catalog-ok assignment slot of the *invoking*
user (`context.user`) — which coincides with the target exactly for
self-requests — and the check reads no slot other than the invoker's (for
`spent`) and the target's requested slot (for `current`). -/
theorem c5_spent_user_amended (env : GraceEnv) (asgn user : String) (amt : Int) :
    (user = env.user → grace env asgn user amt = grace_claim env asgn user amt)
    ∧ (∀ rec2 : String → String → Int,
        (∀ a, rec2 a env.user = env.graceRec a env.user) →
        rec2 asgn user = env.graceRec asgn user →
        grace { env with graceRec := rec2 } asgn user amt = grace env asgn user amt) := by
  constructor
  · intro h
    subst h
    rfl
  · intro rec2 h1 h2
    have hspent : grace_spent { env with graceRec := rec2 } = grace_spent env := by
      simp only [grace_spent, h1]
    simp only [grace, hspent, h2]

/-- Witness for `c5_spent_user_amended`: for a self-request the code's check
and the specification's target-user check coincide. -/
theorem c5_spent_user_amended_witness :
    grace envGrace "a1" "u" 1 = grace_claim envGrace "a1" "u" 1 :=
  (c5_spent_user_amended envGrace "a1" "u" 1).1 rfl

/-- `StatBlock` from `src/asgn_spec.rs`, generic in the score-value
representation: `MetricVal` for freshly captured blocks, rendered strings
(`toml::Value::to_string`) for blocks as the ranking code re-reads them. -/
structure StatBlock (V : Type) where
  user : String
  time : Int
  scores : List (String × V)
  deriving DecidableEq

/-- `StatBlockSet` from `src/asgn_spec.rs`. -/
structure StatBlockSet (V : Type) where
  stat_block : Option (List (StatBlock V))
  deriving DecidableEq

/-- `StatBlockSet::get_block` (src/asgn_spec.rs:697-699): first block whose
user matches, scanning the (optional) list in order. -/
def get_block {V : Type} (set : StatBlockSet V) (user : String) : Option (StatBlock V) :=
  (set.stat_block.getD []).find? (fun block => block.user = user)

/-- Per-member environment of `InstructorAct::latest_score`: the member's
live `turn_in_time` (from `slot.status()`), whether `retrieve_sub`
succeeds, and the run environment plus score ruleset for the rebuild. -/
structure MemberEnv where
  turn_in : Option Int
  retrieve_ok : Bool
  renv : RunEnv
  score_rules : Option Ruleset

/-- `InstructorAct::latest_score` (src/act/instructor.rs:397-445): no
submission yields `Ok(None)`; a cached block is reused verbatim when
`turn_in_time - old_time <= Duration::seconds(1)` (a signed, one-sided
comparison in the source); otherwise the submission is fetched
(`retrieve_sub`, whose failure propagates) and rebuilt — the build ruleset's
own result is discarded and the score ruleset's table (empty on `Err`)
is captured in a fresh block stamped with the live time. -/
def latest_score (old : StatBlockSet MetricVal) (user : String) (env : MemberEnv) :
    Except FailKind (Option (StatBlock MetricVal)) :=
  match env.turn_in with
  | none => .ok none
  | some t =>
    let reuse : Option (StatBlock MetricVal) :=
      match get_block old user with
      | some stats => if t - stats.time ≤ 1 then some stats else none
      | none => none
    match reuse with
    | some stats => .ok (some stats)
    | none =>
      if env.retrieve_ok then
        .ok (some ⟨user, t,
          match run_ruleset env.renv env.score_rules true with
          | .ok tb => tb
          | .error _ => []⟩)
      else .error .ioFail

/-- `InstructorAct::update_scores` (src/act/instructor.rs:448-485): rebuild
the block list member by member; errors are printed and the member skipped,
`Ok(None)` members are reported as having no submission and skipped. -/
def update_scores (old : StatBlockSet MetricVal) (members : List String)
    (envs : String → MemberEnv) : StatBlockSet MetricVal :=
  ⟨some (members.filterMap (fun member =>
    match latest_score old member (envs member) with
    | .ok (some block) => some block
    | .ok none => none
    | .error _ => none))⟩

/-- C8 counterexample: a cached block recorded at time 100 is reused
verbatim for a live turn-in time of 50, although the absolute difference
(50 s) far exceeds the claimed 1-second tolerance: the source's comparison
`turn_in - old <= 1s` is one-sided, not an absolute-value window. -/
theorem c8_reuse_counterexample :
    latest_score ⟨some [⟨"u", 100, []⟩]⟩ "u" ⟨some 50, true, envAllFail, none⟩
        = .ok (some ⟨"u", 100, []⟩)
    ∧ ¬(|(50 : Int) - 100| ≤ 1) :=
  ⟨rfl, by decide⟩

/-- C8 amended: a member's cached StatBlock is reused verbatim iff the
signed difference `turn_in_time - recorded_time` is at most one second (so
any recorded time from one second before the live time onward — including
far-future recorded times — is reused); beyond that the submission is
rebuilt into a fresh block stamped with the live time (or the retrieval
failure propagates), never the cached block. -/
theorem c8_reuse_amended (old : StatBlockSet MetricVal) (user : String) (env : MemberEnv)
    (t : Int) (stats : StatBlock MetricVal)
    (hti : env.turn_in = some t) (hblk : get_block old user = some stats) :
    (t - stats.time ≤ 1 → latest_score old user env = .ok (some stats))
    ∧ (1 < t - stats.time →
        stats.time ≠ t
        ∧ (env.retrieve_ok = true →
            latest_score old user env
              = .ok (some ⟨user, t,
                  match run_ruleset env.renv env.score_rules true with
                  | .ok tb => tb
                  | .error _ => []⟩))
        ∧ (env.retrieve_ok = false → latest_score old user env = .error .ioFail)) := by
  refine ⟨?_, ?_⟩
  · intro h
    simp [latest_score, hti, hblk, h]
  · intro h
    refine ⟨by omega, ?_, ?_⟩
    · intro hr
      simp [latest_score, hti, hblk, hr, not_le.mpr h]
    · intro hr
      simp [latest_score, hti, hblk, hr, not_le.mpr h]

/-- Witness for `c8_reuse_amended`: an up-to-date cached block (equal times)
is reused; a stale one (live time 50 s past the record) is rebuilt. -/
theorem c8_reuse_amended_witness :
    latest_score ⟨some [⟨"u", 100, []⟩]⟩ "u" ⟨some 100, true, envAllFail, none⟩
        = .ok (some ⟨"u", 100, []⟩)
    ∧ latest_score ⟨some [⟨"u", 100, []⟩]⟩ "u" ⟨some 150, true, envAllFail, none⟩
        = .ok (some ⟨"u", 150, []⟩) := by
  constructor
  · exact (c8_reuse_amended ⟨some [⟨"u", 100, []⟩]⟩ "u" ⟨some 100, true, envAllFail, none⟩
      100 ⟨"u", 100, []⟩ rfl rfl).1 (by decide)
  · have h := (c8_reuse_amended ⟨some [⟨"u", 100, []⟩]⟩ "u" ⟨some 150, true, envAllFail, none⟩
      150 ⟨"u", 100, []⟩ rfl rfl).2 (by decide)
    have h2 := h.2.1 rfl
    rw [h2]
    rfl

/-- Map lookup on a stored score table (`stat_block.scores.get(name)`),
over rendered string values. -/
def scoresLookup (scores : List (String × String)) (k : String) : Option String :=
  (scores.find? (fun p => p.1 = k)).map (fun p => p.2)

/-- The row `StudentAct::rank_specialized` (src/act/student.rs:221-237)
builds for one member: `None` when the member has no stat block (the member
is skipped); otherwise the parsed sort key paired with
`Some(member) :: [scores.get(rule.target) for rule in ruleset.rules]`.
`parse` is the `FromStr` oracle for the concrete score type; the source
unwraps it, so inputs are assumed parseable. -/
def rowOf {α : Type} (parse : String → α) (scores : StatBlockSet String) (rset : Ruleset)
    (rule_name : String) (member : String) : Option (Option α × List (Option String)) :=
  match get_block scores member with
  | none => none
  | some stat =>
    some ((scoresLookup stat.scores rule_name).map parse,
      some member :: rset.rules.map (fun r => scoresLookup stat.scores r.target))

/-- The comparator closure of `rank_specialized` (src/act/student.rs:239-250)
as a ≤-test (`compare(a,b) != Greater`): present values compare by the score
order (reversed when descending), a present value sorts before a missing
one, two missing values tie. -/
def rank_le {α : Type} [LinearOrder α] (up : Bool)
    (a b : Option α × List (Option String)) : Bool :=
  match a.1, b.1 with
  | some x, some y => if up then decide (x ≤ y) else decide (y ≤ x)
  | some _, none => true
  | none, some _ => false
  | none, none => true

/-- The sorted row list.  Rust's `Vec::sort_by` is a stable sort; for the
total transitive comparator above the stable-sorted permutation is unique,
so the (stable) insertion sort is an exact model of its output order. -/
def rank_rows {α : Type} [LinearOrder α] (parse : String → α)
    (scores : StatBlockSet String) (rset : Ruleset) (rule_name : String) (up : Bool)
    (members : List String) : List (Option α × List (Option String)) :=
  List.insertionSort (fun a b => rank_le up a b = true)
    (members.filterMap (rowOf parse scores rset rule_name))

/-- `StudentAct::rank_specialized` (src/act/student.rs:200-262): the printed
body rows in order, each entry rendered with `unwrap_or("None")`. -/
def rank_specialized {α : Type} [LinearOrder α] (parse : String → α)
    (scores : StatBlockSet String) (rset : Ruleset) (rule_name : String) (up : Bool)
    (members : List String) : List (List String) :=
  (rank_rows parse scores rset rule_name up members).map
    (fun row => row.2.map (fun entry => entry.getD "None"))

instance rank_le_total {α : Type} [LinearOrder α] (up : Bool) :
    IsTotal (Option α × List (Option String)) (fun a b => rank_le up a b = true) := by
  constructor
  intro a b
  rcases a with ⟨_ | x, ra⟩ <;> rcases b with ⟨_ | y, rb⟩ <;> simp [rank_le]
  cases up
  · simpa using le_total y x
  · simpa using le_total x y

instance rank_le_trans {α : Type} [LinearOrder α] (up : Bool) :
    IsTrans (Option α × List (Option String)) (fun a b => rank_le up a b = true) := by
  constructor
  intro a b c hab hbc
  rcases a with ⟨_ | x, ra⟩ <;> rcases b with ⟨_ | y, rb⟩ <;> rcases c with ⟨_ | z, rc⟩ <;>
    simp [rank_le] at *
  cases up <;> simp at *
  · exact le_trans hbc hab
  · exact le_trans hab hbc

/-- Mutual ≤ under the ranking comparator forces equal sort keys. -/
theorem rank_le_antisymm_keys {α : Type} [LinearOrder α] (up : Bool)
    (a b : Option α × List (Option String))
    (hab : rank_le up a b = true) (hba : rank_le up b a = true) : a.1 = b.1 := by
  rcases a with ⟨_ | x, ra⟩ <;> rcases b with ⟨_ | y, rb⟩ <;>
    simp [rank_le] at hab hba ⊢
  cases up <;> simp at hab hba <;> exact le_antisymm (by assumption) (by assumption)

/-- A sorted permutation is unique as soon as the order is antisymmetric on
the elements actually present. -/
theorem eq_of_perm_of_sorted_on {α : Type} {r : α → α → Prop} :
    ∀ {l1 l2 : List α}, l1.Perm l2 → l1.Sorted r → l2.Sorted r →
      (∀ a ∈ l1, ∀ b ∈ l1, r a b → r b a → a = b) → l1 = l2 := by
  intro l1
  induction l1 with
  | nil =>
    intro l2 hp _ _ _
    exact (hp.symm.eq_nil).symm
  | cons a t1 ih =>
    intro l2 hp hs1 hs2 hanti
    cases l2 with
    | nil => exact absurd hp.eq_nil (by simp)
    | cons b t2 =>
      have hab : a = b := by
        by_contra hne
        have hain : a ∈ b :: t2 := hp.mem_iff.mp (by simp)
        have hbin : b ∈ a :: t1 := hp.mem_iff.mpr (by simp)
        have ha2 : a ∈ t2 := by
          rcases List.mem_cons.mp hain with h | h
          · exact absurd h hne
          · exact h
        have hb1 : b ∈ t1 := by
          rcases List.mem_cons.mp hbin with h | h
          · exact absurd h.symm hne
          · exact h
        have hba : r b a := (List.sorted_cons.mp hs2).1 a ha2
        have hrab : r a b := (List.sorted_cons.mp hs1).1 b hb1
        exact hne (hanti a (by simp) b (by simp [hb1]) hrab hba)
      subst hab
      have hp' : t1.Perm t2 := hp.cons_inv
      have ht : t1 = t2 :=
        ih hp' (List.sorted_cons.mp hs1).2 (List.sorted_cons.mp hs2).2
          (fun x hx y hy => hanti x (by simp [hx]) y (by simp [hy]))
      rw [ht]

/-- C9 counterexample: two members whose sort keys tie keep their member-list
order (the sort is stable), so permuting the member list permutes the output
rows — contradicting invariance "including for members whose sort-key values
tie". -/
theorem c9_perm_counterexample :
    rank_specialized (fun _ => (0 : Int))
        ⟨some [⟨"a", 0, [("s", "1")]⟩, ⟨"b", 0, [("s", "1")]⟩]⟩
        ⟨none, none, none, [⟨"s", none, some "int"⟩]⟩ "s" true ["a", "b"]
      ≠ rank_specialized (fun _ => (0 : Int))
        ⟨some [⟨"a", 0, [("s", "1")]⟩, ⟨"b", 0, [("s", "1")]⟩]⟩
        ⟨none, none, none, [⟨"s", none, some "int"⟩]⟩ "s" true ["b", "a"] := by
  decide

/-- C9 amended: the output row order is invariant under permutation of the
member list provided no two produced rows share a sort-key value (no ties
and at most one missing key); rows with tying or missing keys instead keep
member-list order, stably. -/
theorem c9_rank_perm_amended {α : Type} [LinearOrder α] (parse : String → α)
    (scores : StatBlockSet String) (rset : Ruleset) (rule_name : String) (up : Bool)
    (m1 m2 : List String) (hp : m1.Perm m2)
    (hkeys : (m1.filterMap (rowOf parse scores rset rule_name)).Pairwise
      (fun r1 r2 => r1.1 ≠ r2.1)) :
    rank_specialized parse scores rset rule_name up m1
      = rank_specialized parse scores rset rule_name up m2 := by
  have hrows : (m1.filterMap (rowOf parse scores rset rule_name)).Perm
      (m2.filterMap (rowOf parse scores rset rule_name)) :=
    hp.filterMap _
  have hperm : (rank_rows parse scores rset rule_name up m1).Perm
      (rank_rows parse scores rset rule_name up m2) :=
    ((List.perm_insertionSort _ _).trans hrows).trans (List.perm_insertionSort _ _).symm
  haveI := rank_le_total (α := α) up
  haveI := rank_le_trans (α := α) up
  have hs1 := List.sorted_insertionSort (fun a b => rank_le up a b = true)
    (m1.filterMap (rowOf parse scores rset rule_name))
  have hs2 := List.sorted_insertionSort (fun a b => rank_le up a b = true)
    (m2.filterMap (rowOf parse scores rset rule_name))
  have hsym : Symmetric (fun (r1 r2 : Option α × List (Option String)) => r1.1 ≠ r2.1) :=
    fun _ _ h heq => h heq.symm
  have hkeys1 : (rank_rows parse scores rset rule_name up m1).Pairwise
      (fun r1 r2 => r1.1 ≠ r2.1) :=
    (List.Perm.pairwise_iff (fun h heq => h heq.symm)
      (List.perm_insertionSort _ _)).mpr hkeys
  have heq : rank_rows parse scores rset rule_name up m1
      = rank_rows parse scores rset rule_name up m2 := by
    refine eq_of_perm_of_sorted_on hperm hs1 hs2 ?_
    intro a ha b hb hab hba
    by_contra hne
    exact (hkeys1.forall hsym ha hb hne) (rank_le_antisymm_keys up a b hab hba)
  simp only [rank_specialized, heq]

/-- Witness for `c9_rank_perm_amended`: distinct keys 1 and 2, members
permuted. -/
theorem c9_rank_perm_amended_witness :
    rank_specialized (fun s => if s = "2" then (2 : Int) else 1)
        ⟨some [⟨"a", 0, [("s", "1")]⟩, ⟨"b", 0, [("s", "2")]⟩]⟩
        ⟨none, none, none, [⟨"s", none, some "int"⟩]⟩ "s" true ["a", "b"]
      = rank_specialized (fun s => if s = "2" then (2 : Int) else 1)
        ⟨some [⟨"a", 0, [("s", "1")]⟩, ⟨"b", 0, [("s", "2")]⟩]⟩
        ⟨none, none, none, [⟨"s", none, some "int"⟩]⟩ "s" true ["b", "a"] :=
  c9_rank_perm_amended (fun s => if s = "2" then (2 : Int) else 1)
    ⟨some [⟨"a", 0, [("s", "1")]⟩, ⟨"b", 0, [("s", "2")]⟩]⟩
    ⟨none, none, none, [⟨"s", none, some "int"⟩]⟩ "s" true ["a", "b"] ["b", "a"]
    (List.Perm.swap "b" "a" []) (by decide)

end Asgn
